import Mathlib

/-
Shallow embedding of the HottaDrumScript drum playback engine.

The embedding follows src/drum_player.py (class DrumPlayer) and the
note-merging step of src/midi_converter.py (convert_midi_to_score).
Python wall-clock instants and durations are modelled as rationals,
Python dictionaries with string keys as functions into Option, and the
side effects of the player as explicit action traces or as explicit
state passing.
-/

/-- NoteEvent models one entry of the score dictionary list: the keys
are time (offset in milliseconds), note (a list of semantic key
identifiers) and an optional probability, read by the player via
note.get with default 1.0 (drum_player.py line 86). -/
structure NoteEvent where
  time : ℚ
  note : List String
  probability : Option ℚ
deriving DecidableEq

/-- Effective inclusion probability of a note event, mirroring
note.get with default 1.0 at drum_player.py line 86. -/
def NoteEvent.prob (e : NoteEvent) : ℚ :=
  e.probability.getD 1

/-- Score models the score_data dictionary consumed by the player:
bpm (drum_player.py line 64, default 120 folded into construction) and
the list of note events (line 62). -/
structure Score where
  bpm : ℚ
  notes : List NoteEvent
deriving DecidableEq

/-- Stable sort of the note list by ascending time, modelling the
Python calls sorted(..., key=lambda x: x[time]) at drum_player.py
line 62 and midi_converter.py lines 83 and 96 (Python sort is stable;
insertion sort is a stable sort). -/
def sortByTime (notes : List NoteEvent) : List NoteEvent :=
  notes.insertionSort (fun a b => a.time ≤ b.time)

/-- Timeline the player actually schedules for playback: drum_player.py
line 62 sorts the notes of the score by time and uses them as they are;
no merging of duplicate offsets happens in the player. -/
def scheduledNotes (score : Score) : List NoteEvent :=
  sortByTime score.notes

/-- Milliseconds per 4-beat measure, drum_player.py line 65:
measure_duration_ms = 240000 / bpm. -/
def measureDurationMs (bpm : ℚ) : ℚ :=
  240000 / bpm

/-- Loop duration derived from the notes, drum_player.py lines 67 to 71:
0 when the sorted note list is empty, otherwise
(floor(last_note_time_ms / measure_duration_ms) + 1) * measure_duration_ms
/ 1000. -/
def fromNotesDurationS (score : Score) : ℚ :=
  match (scheduledNotes score).getLast? with
  | some lastNote =>
      (((Int.floor (lastNote.time / measureDurationMs score.bpm) + 1 : ℤ) : ℚ)
        * measureDurationMs score.bpm) / 1000
  | none => 0

/-- Loop cycle duration in seconds, drum_player.py lines 73 to 76: when
the duration derived from the notes is not positive, the fallback
(measure_duration_ms * 4) / 1000 is used (with a printed warning). -/
def totalLoopDurationS (score : Score) : ℚ :=
  if fromNotesDurationS score ≤ 0 then (measureDurationMs score.bpm * 4) / 1000
  else fromNotesDurationS score

/-- DispatchRec records one simulated event dispatch of the loop body:
the loop_count of its cycle, the target_absolute_time computed at
drum_player.py line 96, and the clock value at which the dispatch
started (after the sleep of lines 98 to 100). -/
structure DispatchRec where
  loopCount : ℕ
  targetTime : ℚ
  fireClock : ℚ
deriving DecidableEq

/-- runEvents simulates the inner for loop of one cycle,
drum_player.py lines 91 to 105, with cancellation never requested.
Arguments: t0 is performance_start_time, loopOffset is
current_loop_offset_s (line 89), lc the loop_count, then the events of
the cycle, the current clock, and the list of injected per-event
processing delays (the real duration of _play_note_group and any
scheduling jitter). Per event: target_absolute_time = t0 + loopOffset
+ time / 1000 (line 96); the loop sleeps exactly up to the target when
the remaining duration is positive (lines 98 to 100), dispatches, and
the injected delay elapses. Returns the final clock and the dispatch
records. -/
def runEvents (t0 loopOffset : ℚ) (lc : ℕ) :
    List NoteEvent → ℚ → List ℚ → ℚ × List DispatchRec
  | [], now, _ => (now, [])
  | e :: rest, now, delays =>
      let target := t0 + loopOffset + e.time / 1000
      let slept := if 0 < target - now then target else now
      let stepped := runEvents t0 loopOffset lc rest (slept + delays.headD 0) delays.tail
      (stepped.1, ⟨lc, target, slept⟩ :: stepped.2)

/-- runSession simulates the while loop of _play_score_task,
drum_player.py lines 81 to 112, for a given number of cycles with loop
mode enabled, variation disabled and no stop request: each cycle uses
current_loop_offset_s = loop_count * total_loop_duration_s (line 89),
runs the events with the injected delay list of that cycle, and ends
with the 1 millisecond boundary sleep of line 112. -/
def runSession (t0 loopDur : ℚ) (notes : List NoteEvent) (delays : ℕ → List ℚ) :
    ℕ → ℕ → ℚ → List DispatchRec
  | 0, _, _ => []
  | fuel + 1, lc, now =>
      (runEvents t0 ((lc : ℚ) * loopDur) lc notes now (delays lc)).2
        ++ runSession t0 loopDur notes delays fuel (lc + 1)
            ((runEvents t0 ((lc : ℚ) * loopDur) lc notes now (delays lc)).1 + 1 / 1000)

/-- plannedTargets states the specification formula for the target
instants: cycle n of the session contributes, for every event, the
pair (n, T0 + n * cycleDurationSeconds + offset_ms / 1000), computed
from the fixed origin and the integer cycle count alone. -/
def plannedTargets (t0 loopDur : ℚ) (notes : List NoteEvent) :
    ℕ → ℕ → List (ℕ × ℚ)
  | 0, _ => []
  | fuel + 1, lc =>
      notes.map (fun e => (lc, t0 + (lc : ℚ) * loopDur + e.time / 1000))
        ++ plannedTargets t0 loopDur notes fuel (lc + 1)

/-- Act enumerates the externally visible steps of play_score and of
the spawned task, used to state where the pre-roll sleep and the
capture of the timing origin happen. -/
inductive Act
  | log
  | sleep (seconds : ℚ)
  | captureT0
  | clearStopEvent
  | spawnThread
  | dispatchLoop
deriving DecidableEq

/-- preRollSeconds is the fixed pre-roll delay of drum_player.py
line 60: time.sleep(3). -/
def preRollSeconds : ℚ := 3

/-- playScoreTaskActs lists, in program order, the steps of
_play_score_task up to the start of the dispatch loop: the print at
line 59, the pre-roll sleep at line 60, the capture of
performance_start_time at line 78 (lines 62 to 76 in between are pure
computation), and the while loop from line 81. -/
def playScoreTaskActs : List Act :=
  [Act.log, Act.sleep preRollSeconds, Act.captureT0, Act.dispatchLoop]

/-- playScoreCallerActs lists the steps play_score performs in the
calling context on an accepted start, drum_player.py lines 129 to 131:
clear stop_event, then create and start the thread; the caller never
sleeps. -/
def playScoreCallerActs : List Act :=
  [Act.clearStopEvent, Act.spawnThread]

/-- performanceStartClock gives the monotonic clock value at which
performance_start_time is captured (drum_player.py line 78) when the
dispatch task begins at clock taskStart: the capture runs after the
3 second sleep of line 60 has elapsed. -/
def performanceStartClock (taskStart : ℚ) : ℚ :=
  taskStart + preRollSeconds

/-- PyValue models a Python value as observed for truthiness: the
constant None or a boolean. -/
inductive PyValue
  | none
  | bool (b : Bool)
deriving DecidableEq

/-- Truthiness of a PyValue under the Python rules: None is falsy, a
boolean is its own truth value. -/
def PyValue.truthy : PyValue → Bool
  | PyValue.none => false
  | PyValue.bool b => b

/-- DrumPlayer models the mutable state of the player object,
drum_player.py lines 12 to 17: the stop_event flag, the thread handle
(none when playing_thread is None, otherwise some aliveness value for
is_alive), and the two mode flags. -/
structure DrumPlayer where
  stopEventSet : Bool
  playingThread : Option Bool
  loopEnabled : Bool
  variationEnabled : Bool
deriving DecidableEq

/-- initPlayer is the state built by __init__, drum_player.py lines 12
to 17: stop_event unset, playing_thread None, both modes disabled. -/
def initPlayer : DrumPlayer :=
  ⟨false, Option.none, false, false⟩

/-- isPlayingPy models is_playing, drum_player.py line 150: the Python
expression playing_thread and playing_thread.is_alive() returns the
falsy left operand None when the handle is None (a Thread object is
always truthy), and otherwise returns the is_alive boolean. -/
def isPlayingPy (s : DrumPlayer) : PyValue :=
  match s.playingThread with
  | Option.none => PyValue.none
  | Option.some alive => PyValue.bool alive

/-- playScore models play_score, drum_player.py lines 121 to 131, as a
function of the player state returning the new state and whether a new
dispatch thread was spawned: a truthy is_playing makes it return with
no state change (lines 125 to 127); otherwise stop_event is cleared
and the thread is created and started (lines 129 to 131). -/
def playScore (s : DrumPlayer) : DrumPlayer × Bool :=
  if (isPlayingPy s).truthy then (s, false)
  else ({ s with stopEventSet := false, playingThread := Option.some true }, true)

/-- taskExitState models the last statement of _play_score_task,
drum_player.py line 119: the task clears stop_event just before the
thread dies. -/
def taskExitState (s : DrumPlayer) : DrumPlayer :=
  { s with stopEventSet := false }

/-- stopOp models stop, drum_player.py lines 133 to 144: a no-op when
is_playing is falsy (lines 137 to 138); otherwise it sets stop_event
(line 141), joins the thread, which blocks until the task has run to
its exit and cleared stop_event (line 142 joining, line 119 clearing),
and finally sets playing_thread to None (line 143). -/
def stopOp (s : DrumPlayer) : DrumPlayer :=
  if (isPlayingPy s).truthy then
    { taskExitState { s with stopEventSet := true } with playingThread := Option.none }
  else s

/-- innerLoop models the per-event body of the dispatch loop,
drum_player.py lines 91 to 105, with the stop_event value observed at
the k-th flag read given by flag k: the flag is read before the sleep
(lines 92 to 93) and again after the sleep (lines 102 to 103); a set
flag breaks out of the loop without dispatching the current event or
any later one, otherwise the event is dispatched (line 105). The
returned list is the list of dispatched events. -/
def innerLoop (flag : ℕ → Bool) : ℕ → List NoteEvent → List NoteEvent
  | _, [] => []
  | i, e :: rest =>
      if flag i then []
      else if flag (i + 1) then []
      else e :: innerLoop flag (i + 2) rest

/-- stopFlagFrom models a stop request arriving at flag read t: every
read from index t on observes the flag set, since stop_event is only
set by stop and only cleared when the task exits. -/
def stopFlagFrom (t : ℕ) : ℕ → Bool :=
  fun i => decide (t ≤ i)

/-- notesThisLoop models the variation list comprehension of
drum_player.py lines 84 to 87, with the k-th value returned by
random.random() given by draws k: a note is kept exactly when the draw
is at most its probability (random.random() <= note.get(probability,
1.0)), and one draw is consumed per note. -/
def notesThisLoop (draws : ℕ → ℚ) : ℕ → List NoteEvent → List NoteEvent
  | _, [] => []
  | i, e :: rest =>
      if draws i ≤ e.prob then e :: notesThisLoop draws (i + 1) rest
      else notesThisLoop draws (i + 1) rest

/-- eventsThisCycle models drum_player.py lines 82 to 87: the full note
list when variation is disabled, the filtered list when enabled. -/
def eventsThisCycle (variationOn : Bool) (draws : ℕ → ℚ) (notes : List NoteEvent) :
    List NoteEvent :=
  if variationOn then notesThisLoop draws 0 notes else notes

/-- resolveKeys models the key resolution loop of _play_note_group,
drum_player.py lines 33 to 39: key_mapping.get(note) is looked up and
the key is appended to keys_to_press exactly when it is truthy, that
is present and not the empty string. -/
def resolveKeys (keyMapping : String → Option String) : List String → List String
  | [] => []
  | n :: rest =>
      match keyMapping n with
      | Option.some k =>
          if k = "" then resolveKeys keyMapping rest
          else k :: resolveKeys keyMapping rest
      | Option.none => resolveKeys keyMapping rest

/-- unresolvedNotes lists the identifiers that take the warning branch
of drum_player.py lines 38 to 39 (lookup missing or falsy), in
iteration order. -/
def unresolvedNotes (keyMapping : String → Option String) : List String → List String
  | [] => []
  | n :: rest =>
      match keyMapping n with
      | Option.some k =>
          if k = "" then n :: unresolvedNotes keyMapping rest
          else unresolvedNotes keyMapping rest
      | Option.none => n :: unresolvedNotes keyMapping rest

/-- KeyAct is one observable step of _play_note_group: a printed
warning, a key press, the fixed hold sleep, or a key release. -/
inductive KeyAct
  | warn (noteName : String)
  | keyDown (key : String)
  | holdSleep (seconds : ℚ)
  | keyUp (key : String)
deriving DecidableEq

/-- holdSeconds is the fixed hold of drum_player.py line 49:
time.sleep(0.05), that is 50 milliseconds. -/
def holdSeconds : ℚ := 5 / 100

/-- playNoteGroup models _play_note_group, drum_player.py lines 29 to
53, as the trace of its observable steps: the warnings of the
resolution loop (all printed before any press), then, when the
resolved list is empty, nothing more (lines 41 to 42); otherwise all
key presses in resolution order (lines 45 to 46), the fixed hold
(line 49), and all releases in the same order (lines 52 to 53). -/
def playNoteGroup (keyMapping : String → Option String) (notesToPlay : List String) :
    List KeyAct :=
  if resolveKeys keyMapping notesToPlay = [] then
    (unresolvedNotes keyMapping notesToPlay).map KeyAct.warn
  else
    (unresolvedNotes keyMapping notesToPlay).map KeyAct.warn
      ++ (resolveKeys keyMapping notesToPlay).map KeyAct.keyDown
      ++ [KeyAct.holdSleep holdSeconds]
      ++ (resolveKeys keyMapping notesToPlay).map KeyAct.keyUp

/-- addToGroup models one insertion into the time_grouped_notes Python
dictionary, midi_converter.py lines 86 to 90: the dictionary keeps its
keys in first-insertion order and appends the value to the list of the
entry with the matching timestamp. -/
def addToGroup : List (ℚ × List String) → ℚ → String → List (ℚ × List String)
  | [], t, k => [(t, [k])]
  | (t2, ks) :: rest, t, k =>
      if t2 = t then (t2, ks ++ [k]) :: rest
      else (t2, ks) :: addToGroup rest t k

/-- timeGroupedNotes models midi_converter.py lines 85 to 90: the notes
are walked in order and, for each, the first element of its key list
(the Python subscript [0] at line 90, which reads only the first key
and assumes the list is non-empty, as it is for converter-built notes)
is appended to the group of its timestamp. -/
def timeGroupedNotes (notes : List NoteEvent) : List (ℚ × List String) :=
  notes.foldl (fun acc e => addToGroup acc e.time (e.note.headD "")) []

/-- charListLe compares two character lists lexicographically by code
point, the order Python uses on strings. -/
def charListLe : List Char → List Char → Bool
  | [], _ => true
  | _ :: _, [] => false
  | c :: cs, d :: ds =>
      if c < d then true
      else if d < c then false
      else charListLe cs ds

/-- pyStrLe models the Python string comparison used by sorted at
midi_converter.py line 93: lexicographic by Unicode code point. -/
def pyStrLe (a b : String) : Bool :=
  charListLe a.toList b.toList

/-- dedupSortKeys models sorted(list(set(note_list))) at
midi_converter.py line 93: duplicates removed, the remaining names
sorted lexicographically. -/
def dedupSortKeys (ks : List String) : List String :=
  ks.dedup.insertionSort (fun a b => pyStrLe a b = true)

/-- mergedNotes models the merge step of convert_midi_to_score,
midi_converter.py lines 81 to 96: sort the raw notes by time, group
the first key of each note by timestamp, rebuild one note per
timestamp with deduplicated sorted keys (converter notes carry no
probability key), and sort by time again. -/
def mergedNotes (notes : List NoteEvent) : List NoteEvent :=
  sortByTime ((timeGroupedNotes (sortByTime notes)).map
    (fun g => ⟨g.1, dedupSortKeys g.2, Option.none⟩))

/-- demoScore is a concrete score used in witnesses: bpm 120, last
note at 2500 milliseconds. -/
def demoScore : Score :=
  ⟨120, [⟨0, ["bass_drum"], Option.none⟩, ⟨2500, ["snare"], Option.none⟩]⟩

/-- probeNote is a concrete note with probability 0.0 used for the
variation claims. -/
def probeNote : NoteEvent :=
  ⟨0, ["snare"], Option.some 0⟩

/-- dupA is a raw note group at offset 100 with keys [snare]. -/
def dupA : NoteEvent :=
  ⟨100, ["snare"], Option.none⟩

/-- dupB is a raw note group at offset 100 with keys
[snare, close_hi_hat]. -/
def dupB : NoteEvent :=
  ⟨100, ["snare", "close_hi_hat"], Option.none⟩

/-- demoMapping is a concrete key mapping used in witnesses: snare and
bass_drum are mapped, ghost is not. -/
def demoMapping : String → Option String :=
  fun n =>
    if n = "snare" then Option.some "j"
    else if n = "bass_drum" then Option.some "f"
    else Option.none

/-- Helper: the scheduled notes are a permutation of the notes of the
score, since sorting only reorders. -/
theorem scheduledNotes_perm (score : Score) :
    List.Perm (scheduledNotes score) score.notes :=
  List.perm_insertionSort _ _

/-- Helper: the targets recorded by one simulated cycle depend only on
the origin, the cycle offset and the event offsets, never on the clock
or the injected delays. -/
theorem runEvents_targets (t0 loopOffset : ℚ) (lc : ℕ) :
    ∀ (events : List NoteEvent) (now : ℚ) (delays : List ℚ),
      (runEvents t0 loopOffset lc events now delays).2.map
          (fun r => (r.loopCount, r.targetTime))
        = events.map (fun e => (lc, t0 + loopOffset + e.time / 1000)) := by
  intro events
  induction events with
  | nil => intro now delays; rfl
  | cons e rest ih =>
      intro now delays
      simp only [runEvents, List.map_cons, ih]

/-- Helper: the targets recorded by a simulated session equal the
planned targets, for every clock value and every delay schedule. -/
theorem runSession_targets (t0 loopDur : ℚ) (notes : List NoteEvent)
    (delays : ℕ → List ℚ) :
    ∀ (fuel lc : ℕ) (now : ℚ),
      (runSession t0 loopDur notes delays fuel lc now).map
          (fun r => (r.loopCount, r.targetTime))
        = plannedTargets t0 loopDur notes fuel lc := by
  intro fuel
  induction fuel with
  | zero => intro lc now; rfl
  | succ n ih =>
      intro lc now
      simp only [runSession, plannedTargets, List.map_append, runEvents_targets, ih]

/-- Helper: a loop whose flag is already set dispatches nothing. -/
theorem innerLoop_flag_set (flag : ℕ → Bool) (i : ℕ) (notes : List NoteEvent)
    (h : flag i = true) : innerLoop flag i notes = [] := by
  cases notes with
  | nil => rfl
  | cons e rest => simp [innerLoop, h]

/-- Helper: the dispatched events form a prefix of the cycle events,
and each dispatched event passed both its flag reads, the one before
and the one after its sleep. -/
theorem innerLoop_take (flag : ℕ → Bool) :
    ∀ (notes : List NoteEvent) (i : ℕ),
      ∃ m, innerLoop flag i notes = notes.take m
        ∧ ∀ k, k < m → flag (i + 2 * k) = false ∧ flag (i + 2 * k + 1) = false := by
  intro notes
  induction notes with
  | nil =>
      intro i
      exact ⟨0, rfl, by omega⟩
  | cons e rest ih =>
      intro i
      by_cases h1 : flag i = true
      · exact ⟨0, by simp [innerLoop, h1], by omega⟩
      · by_cases h2 : flag (i + 1) = true
        · exact ⟨0, by simp [innerLoop, h1, h2], by omega⟩
        · obtain ⟨m, hm, hflags⟩ := ih (i + 2)
          refine ⟨m + 1, ?_, ?_⟩
          · simp [innerLoop, h1, h2, hm]
          · intro k hk
            cases k with
            | zero =>
                have e1 : i + 2 * 0 = i := by omega
                have e2 : i + 2 * 0 + 1 = i + 1 := by omega
                rw [e1, e2]
                exact ⟨by simpa using h1, by simpa using h2⟩
            | succ k2 =>
                have harg1 : i + 2 * (k2 + 1) = i + 2 + 2 * k2 := by omega
                rw [harg1]
                exact hflags k2 (by omega)

/-- Helper: a loop whose flag is never set dispatches every event. -/
theorem innerLoop_never_set :
    ∀ (notes : List NoteEvent) (i : ℕ), innerLoop (fun _ => false) i notes = notes := by
  intro notes
  induction notes with
  | nil => intro i; rfl
  | cons e rest ih => intro i; simp [innerLoop, ih]

/-- Helper: with every probability equal to 1 and every draw below 1,
the variation filter keeps every note. -/
theorem notesThisLoop_all_kept (draws : ℕ → ℚ) (hdraws : ∀ j, draws j < 1) :
    ∀ (notes : List NoteEvent), (∀ e ∈ notes, e.prob = 1) →
      ∀ i, notesThisLoop draws i notes = notes := by
  intro notes
  induction notes with
  | nil => intro _ i; rfl
  | cons e rest ih =>
      intro hprob i
      have he : e.prob = 1 := hprob e (List.mem_cons_self e rest)
      have hkeep : draws i ≤ e.prob := he ▸ le_of_lt (hdraws i)
      simp [notesThisLoop, hkeep,
        ih (fun x hx => hprob x (List.mem_cons_of_mem e hx)) (i + 1)]

/-- Helper: with every probability equal to 0 and every draw strictly
positive, the variation filter drops every note. -/
theorem notesThisLoop_all_dropped (draws : ℕ → ℚ) (hdraws : ∀ j, 0 < draws j) :
    ∀ (notes : List NoteEvent), (∀ e ∈ notes, e.prob = 0) →
      ∀ i, notesThisLoop draws i notes = [] := by
  intro notes
  induction notes with
  | nil => intro _ i; rfl
  | cons e rest ih =>
      intro hprob i
      have he : e.prob = 0 := hprob e (List.mem_cons_self e rest)
      have hdrop : ¬ draws i ≤ e.prob := by
        rw [he]
        exact not_le.mpr (hdraws i)
      simp [notesThisLoop, hdrop,
        ih (fun x hx => hprob x (List.mem_cons_of_mem e hx)) (i + 1)]

/-- Helper: an identifier whose lookup is missing appears among the
warned identifiers. -/
theorem mem_unresolvedNotes_of_none (keyMapping : String → Option String) :
    ∀ (notesToPlay : List String) (n : String), n ∈ notesToPlay →
      keyMapping n = Option.none → n ∈ unresolvedNotes keyMapping notesToPlay := by
  intro notesToPlay
  induction notesToPlay with
  | nil => intro n hn; cases hn
  | cons x rest ih =>
      intro n hn hnone
      rcases List.mem_cons.mp hn with heq | hmem
      · subst heq
        simp [unresolvedNotes, hnone]
      · have hrec := ih n hmem hnone
        unfold unresolvedNotes
        cases hx : keyMapping x with
        | none => exact List.mem_cons_of_mem _ hrec
        | some k =>
            by_cases hk : k = ""
            · simp only [hk, if_pos rfl]
              exact List.mem_cons_of_mem _ hrec
            · simp only [if_neg hk]
              exact hrec

/-- Helper: an identifier mapped to a non-empty key contributes that
key to the resolved list. -/
theorem mem_resolveKeys_of_some (keyMapping : String → Option String) :
    ∀ (notesToPlay : List String) (n k : String), n ∈ notesToPlay →
      keyMapping n = Option.some k → k ≠ "" → k ∈ resolveKeys keyMapping notesToPlay := by
  intro notesToPlay
  induction notesToPlay with
  | nil => intro n k hn; cases hn
  | cons x rest ih =>
      intro n k hn hsome hk
      rcases List.mem_cons.mp hn with heq | hmem
      · subst heq
        simp [resolveKeys, hsome, hk]
      · have hrec := ih n k hmem hsome hk
        unfold resolveKeys
        cases hx : keyMapping x with
        | none => exact hrec
        | some k2 =>
            by_cases hk2 : k2 = ""
            · simp only [hk2, if_pos rfl]
              exact hrec
            · simp only [if_neg hk2]
              exact List.mem_cons_of_mem _ hrec

/-- C1: in a simulated session the n-th cycle uses the base instant
T0 + n * cycleDurationSeconds computed from the fixed origin and the
integer cycle count, every target instant is that base plus
offset_ms / 1000, and the whole target schedule is independent of the
starting clock and of every injected sleep, dispatch or processing
delay. -/
theorem cycle_targets_fixed_origin (t0 loopDur startClock : ℚ)
    (notes : List NoteEvent) (delays : ℕ → List ℚ) (numCycles : ℕ) :
    (runSession t0 loopDur notes delays numCycles 0 startClock).map
        (fun r => (r.loopCount, r.targetTime))
      = plannedTargets t0 loopDur notes numCycles 0
    ∧ ∀ (delays2 : ℕ → List ℚ) (startClock2 : ℚ),
        (runSession t0 loopDur notes delays numCycles 0 startClock).map
            (fun r => (r.loopCount, r.targetTime))
          = (runSession t0 loopDur notes delays2 numCycles 0 startClock2).map
              (fun r => (r.loopCount, r.targetTime)) := by
  refine ⟨runSession_targets t0 loopDur notes delays numCycles 0 startClock, ?_⟩
  intro delays2 startClock2
  rw [runSession_targets, runSession_targets]

/-- C2: with measure_duration_ms = 240000 / bpm, a non-empty note list
gives cycle duration (floor(last_offset_ms / measure_duration_ms) + 1)
* measure_duration_ms / 1000, always positive; an empty note list falls
back to measure_duration_ms * 4 / 1000 (one measure), also positive, so
the cycle duration is never zero and no branch fails. -/
theorem loop_duration_measure_aligned (score : Score)
    (hbpm : 0 < score.bpm) (htimes : ∀ e ∈ score.notes, 0 ≤ e.time) :
    (∀ lastNote, (scheduledNotes score).getLast? = some lastNote →
        totalLoopDurationS score =
          ((Int.floor (lastNote.time / measureDurationMs score.bpm) + 1 : ℤ) : ℚ)
            * measureDurationMs score.bpm / 1000
        ∧ 0 < totalLoopDurationS score)
    ∧ (score.notes = [] →
        totalLoopDurationS score = measureDurationMs score.bpm * 4 / 1000
        ∧ 0 < totalLoopDurationS score) := by
  have hmd : 0 < measureDurationMs score.bpm := by
    unfold measureDurationMs
    positivity
  constructor
  · intro lastNote hlast
    have hmem : lastNote ∈ scheduledNotes score := by
      obtain ⟨hne, hval⟩ := List.mem_getLast?_eq_getLast (Option.mem_def.mpr hlast)
      rw [hval]
      exact List.getLast_mem hne
    have htime : 0 ≤ lastNote.time :=
      htimes lastNote ((scheduledNotes_perm score).mem_iff.mp hmem)
    have hfloor : (0 : ℤ) ≤ Int.floor (lastNote.time / measureDurationMs score.bpm) := by
      apply Int.floor_nonneg.mpr
      positivity
    have hfrom : fromNotesDurationS score =
        ((Int.floor (lastNote.time / measureDurationMs score.bpm) + 1 : ℤ) : ℚ)
          * measureDurationMs score.bpm / 1000 := by
      unfold fromNotesDurationS
      rw [hlast]
    have hpos : 0 < fromNotesDurationS score := by
      rw [hfrom]
      apply div_pos _ (by norm_num)
      apply mul_pos _ hmd
      have h1 : (0 : ℤ) < Int.floor (lastNote.time / measureDurationMs score.bpm) + 1 := by
        omega
      exact_mod_cast h1
    have hval : totalLoopDurationS score = fromNotesDurationS score := by
      unfold totalLoopDurationS
      rw [if_neg (not_le.mpr hpos)]
    rw [hval, hfrom]
    exact ⟨rfl, hfrom ▸ hpos⟩
  · intro hempty
    have hnil : scheduledNotes score = [] := by
      have h := scheduledNotes_perm score
      rw [hempty] at h
      exact h.eq_nil
    have hfrom0 : fromNotesDurationS score = 0 := by
      unfold fromNotesDurationS
      rw [hnil]
      rfl
    have hval : totalLoopDurationS score = measureDurationMs score.bpm * 4 / 1000 := by
      unfold totalLoopDurationS
      rw [hfrom0]
      norm_num
    refine ⟨hval, ?_⟩
    rw [hval]
    positivity

/-- Witness for C2 at bpm 120 with the last note at 2500 ms: the
measure is 2000 ms, the formula yields two measures, and the computed
cycle duration is exactly 4 seconds, not 2.5. -/
theorem loop_duration_measure_aligned_witness :
    totalLoopDurationS demoScore =
      ((Int.floor ((2500 : ℚ) / measureDurationMs 120) + 1 : ℤ) : ℚ)
        * measureDurationMs 120 / 1000
    ∧ totalLoopDurationS demoScore = 4 := by
  have hbpm : (0 : ℚ) < demoScore.bpm := by norm_num [demoScore]
  have htimes : ∀ e ∈ demoScore.notes, 0 ≤ e.time := by
    intro e he
    fin_cases he <;> norm_num
  have hlast : (scheduledNotes demoScore).getLast? =
      some ⟨2500, ["snare"], Option.none⟩ := by rfl
  have h := ((loop_duration_measure_aligned demoScore hbpm htimes).1
      ⟨2500, ["snare"], Option.none⟩ hlast).1
  have hbpmval : demoScore.bpm = 120 := rfl
  rw [hbpmval] at h
  refine ⟨h, ?_⟩
  rw [h]
  norm_num [measureDurationMs]

/-- Counterexample for C3: with the task starting at clock 0 the
pre-roll delay elapses at clock 3, and performance_start_time is
captured exactly then, not before; in the program order of
_play_score_task the sleep strictly precedes the capture. -/
theorem preroll_capture_order_counterexample :
    performanceStartClock 0 = 3
    ∧ ¬ performanceStartClock 0 < 0 + preRollSeconds
    ∧ List.indexOf (Act.sleep preRollSeconds) playScoreTaskActs <
        List.indexOf Act.captureT0 playScoreTaskActs := by
  refine ⟨by norm_num [performanceStartClock, preRollSeconds], ?_, by decide⟩
  norm_num [performanceStartClock, preRollSeconds]

/-- C3 amended: the monotonic origin performance_start_time is captured
after the 3 second pre-roll delay has elapsed (the delay precedes the
timing baseline), and the delay is a blocking sleep inside the spawned
dispatch context, not inside play_score, whose caller-side steps
contain no sleep. -/
theorem preroll_then_t0_capture (taskStart : ℚ) :
    performanceStartClock taskStart = taskStart + preRollSeconds
    ∧ (∀ d, Act.sleep d ∉ playScoreCallerActs)
    ∧ Act.sleep preRollSeconds ∈ playScoreTaskActs
    ∧ List.indexOf (Act.sleep preRollSeconds) playScoreTaskActs <
        List.indexOf Act.captureT0 playScoreTaskActs := by
  refine ⟨rfl, ?_, by decide, by decide⟩
  intro d h
  simp [playScoreCallerActs] at h

/-- C4: when a session is running, stop sets the cancellation flag,
joins the task (which exits clearing the flag), and afterwards
is_playing is falsy and the flag is reset; inside the loop the flag is
read before and after every per-event sleep, a flag set from any read
onwards aborts with no further dispatch, and every dispatched event is
one of a prefix of the cycle whose events all passed both their
reads. -/
theorem stop_cancels_session (s : DrumPlayer)
    (hrun : (isPlayingPy s).truthy = true) :
    (isPlayingPy (stopOp s)).truthy = false
    ∧ (stopOp s).stopEventSet = false
    ∧ (∀ (t i : ℕ) (notes : List NoteEvent), t ≤ i →
        innerLoop (stopFlagFrom t) i notes = [])
    ∧ ∀ (flag : ℕ → Bool) (i : ℕ) (notes : List NoteEvent),
        ∃ m, innerLoop flag i notes = notes.take m
          ∧ ∀ k, k < m → flag (i + 2 * k) = false ∧ flag (i + 2 * k + 1) = false := by
  obtain ⟨se, pt, le, ve⟩ := s
  have hstop : stopOp ⟨se, pt, le, ve⟩ = ⟨false, Option.none, le, ve⟩ := by
    simp [stopOp, hrun, taskExitState]
  refine ⟨?_, ?_, ?_, ?_⟩
  · rw [hstop]; rfl
  · rw [hstop]
  · intro t i notes hti
    exact innerLoop_flag_set _ i notes (by simp [stopFlagFrom, hti])
  · intro flag i notes
    exact innerLoop_take flag notes i

/-- Witness for C4: stopping a running player yields a falsy
is_playing and a cleared flag, and a stop observed from the very first
read dispatches nothing. -/
theorem stop_cancels_session_witness :
    (isPlayingPy (stopOp ⟨false, Option.some true, false, false⟩)).truthy = false
    ∧ (stopOp ⟨false, Option.some true, false, false⟩).stopEventSet = false
    ∧ innerLoop (stopFlagFrom 0) 0 [⟨0, ["snare"], Option.none⟩] = [] := by
  have h := stop_cancels_session ⟨false, Option.some true, false, false⟩ (by rfl)
  exact ⟨h.1, h.2.1, h.2.2.1 0 0 _ (by omega)⟩

/-- Counterexample for C5: the timeline the player schedules for the
score holding both raw groups at offset 100 contains two groups at
that offset, not exactly one; moreover even the converter merge, run
on those two raw groups, reads only the first key of each and yields
keys [snare], not [close_hi_hat, snare]. -/
theorem merge_invariant_counterexample :
    (scheduledNotes ⟨120, [dupA, dupB]⟩).countP (fun e => e.time == 100) = 2
    ∧ ¬ (scheduledNotes ⟨120, [dupA, dupB]⟩).countP (fun e => e.time == 100) = 1
    ∧ mergedNotes [dupA, dupB] = [⟨100, ["snare"], Option.none⟩]
    ∧ (["snare"] : List String) ≠ ["close_hi_hat", "snare"] := by
  refine ⟨by decide, by decide, by decide, by decide⟩

/-- C5 amended: the player schedules the notes of the score as given,
sorted by time with duplicate offsets preserved; merging happens only
in the MIDI converter, whose merge step reads only the first key of
each raw group before deduplicating and sorting, so two single-key raw
groups [snare] and [close_hi_hat] at one offset merge into exactly one
group with keys [close_hi_hat, snare], while raw groups [snare] and
[snare, close_hi_hat] at one offset merge into one group with keys
[snare]. -/
theorem merge_invariant_amended (score : Score) :
    List.Perm (scheduledNotes score) score.notes
    ∧ mergedNotes [⟨100, ["snare"], Option.none⟩, ⟨100, ["close_hi_hat"], Option.none⟩]
        = [⟨100, ["close_hi_hat", "snare"], Option.none⟩]
    ∧ mergedNotes [dupA, dupB] = [⟨100, ["snare"], Option.none⟩] := by
  exact ⟨scheduledNotes_perm score, by decide, by decide⟩

/-- Counterexample for C6: probability 0.0 does not silence every
possible draw sequence, because random.random() can return exactly 0
(its range is the half-open interval from 0 to 1) and the code keeps a
note when the draw is at most its probability: with every draw equal
to 0, a probability 0 note is kept. -/
theorem variation_boundedness_counterexample :
    (0 : ℚ) ≤ 0 ∧ (0 : ℚ) < 1
    ∧ probeNote.prob = 0
    ∧ eventsThisCycle true (fun _ => 0) [probeNote] = [probeNote]
    ∧ eventsThisCycle true (fun _ => 0) [probeNote] ≠ [] := by
  refine ⟨by norm_num, by norm_num, by decide, by decide, by decide⟩

/-- C6 amended: each note is kept by an independent fresh draw, kept
exactly when the draw is at most its probability. With probability 1
on every note, every draw sequence in the range of random.random()
(all draws below 1) keeps the full set, identical to the
variation-disabled set; with probability 0 on every note, every draw
sequence with all draws strictly positive keeps nothing, while a draw
of exactly 0 (a possible output of random.random()) keeps its note. -/
theorem variation_boundedness (draws : ℕ → ℚ) (notes : List NoteEvent) (i : ℕ) :
    ((∀ e ∈ notes, e.prob = 1) → (∀ j, draws j < 1) →
        notesThisLoop draws i notes = notes
        ∧ eventsThisCycle true draws notes = eventsThisCycle false draws notes)
    ∧ ((∀ e ∈ notes, e.prob = 0) → (∀ j, 0 < draws j) →
        notesThisLoop draws i notes = []
        ∧ eventsThisCycle true draws notes = []) := by
  constructor
  · intro hprob hdraws
    refine ⟨notesThisLoop_all_kept draws hdraws notes hprob i, ?_⟩
    simp [eventsThisCycle, notesThisLoop_all_kept draws hdraws notes hprob 0]
  · intro hprob hdraws
    refine ⟨notesThisLoop_all_dropped draws hdraws notes hprob i, ?_⟩
    simp [eventsThisCycle, notesThisLoop_all_dropped draws hdraws notes hprob 0]

/-- Witness for C6: with draws of one half, a default-probability note
is always kept and a probability 0 note is always dropped. -/
theorem variation_boundedness_witness :
    notesThisLoop (fun _ => 1 / 2) 0 [⟨0, ["snare"], Option.none⟩]
        = [⟨0, ["snare"], Option.none⟩]
    ∧ notesThisLoop (fun _ => 1 / 2) 0 [probeNote] = [] := by
  have h1 := (variation_boundedness (fun _ => 1 / 2) [⟨0, ["snare"], Option.none⟩] 0).1
      (by intro e he; fin_cases he; rfl) (by intro j; norm_num)
  have h2 := (variation_boundedness (fun _ => 1 / 2) [probeNote] 0).2
      (by intro e he; fin_cases he; rfl) (by intro j; norm_num)
  exact ⟨h1.1, h2.1⟩

/-- C7: the dispatcher warns about and excludes identifiers whose
lookup fails without aborting the group (identifiers with a truthy
mapping still resolve); with no resolved key the trace holds no press,
hold or release; otherwise the trace is exactly the warnings, all
presses in resolution order, the fixed 50 ms hold, and all releases in
the same order as the presses. -/
theorem dispatch_press_hold_release (keyMapping : String → Option String)
    (notesToPlay : List String) :
    (∀ n ∈ notesToPlay, keyMapping n = Option.none →
        KeyAct.warn n ∈ playNoteGroup keyMapping notesToPlay)
    ∧ (∀ n ∈ notesToPlay, ∀ k, keyMapping n = Option.some k → k ≠ "" →
        k ∈ resolveKeys keyMapping notesToPlay)
    ∧ (resolveKeys keyMapping notesToPlay = [] →
        playNoteGroup keyMapping notesToPlay
            = (unresolvedNotes keyMapping notesToPlay).map KeyAct.warn
        ∧ ∀ k, KeyAct.keyDown k ∉ playNoteGroup keyMapping notesToPlay
            ∧ KeyAct.keyUp k ∉ playNoteGroup keyMapping notesToPlay)
    ∧ (resolveKeys keyMapping notesToPlay ≠ [] →
        playNoteGroup keyMapping notesToPlay
          = (unresolvedNotes keyMapping notesToPlay).map KeyAct.warn
            ++ (resolveKeys keyMapping notesToPlay).map KeyAct.keyDown
            ++ [KeyAct.holdSleep holdSeconds]
            ++ (resolveKeys keyMapping notesToPlay).map KeyAct.keyUp) := by
  refine ⟨?_, ?_, ?_, ?_⟩
  · intro n hn hnone
    have hmem := mem_unresolvedNotes_of_none keyMapping notesToPlay n hn hnone
    unfold playNoteGroup
    by_cases hres : resolveKeys keyMapping notesToPlay = []
    · rw [if_pos hres]
      exact List.mem_map_of_mem KeyAct.warn hmem
    · rw [if_neg hres]
      exact List.mem_append_left _
        (List.mem_append_left _
          (List.mem_append_left _ (List.mem_map_of_mem KeyAct.warn hmem)))
  · intro n hn k hsome hk
    exact mem_resolveKeys_of_some keyMapping notesToPlay n k hn hsome hk
  · intro hres
    refine ⟨by rw [playNoteGroup, if_pos hres], ?_⟩
    intro k
    rw [playNoteGroup, if_pos hres]
    constructor
    · intro hmem
      obtain ⟨x, _, hx⟩ := List.mem_map.mp hmem
      cases hx
    · intro hmem
      obtain ⟨x, _, hx⟩ := List.mem_map.mp hmem
      cases hx
  · intro hres
    rw [playNoteGroup, if_neg hres]

/-- Witness for C7: with snare and bass_drum mapped and ghost unmapped,
the trace is one warning, two presses, the 50 ms hold, and the two
releases in press order. -/
theorem dispatch_press_hold_release_witness :
    playNoteGroup demoMapping ["snare", "ghost", "bass_drum"]
      = [KeyAct.warn "ghost", KeyAct.keyDown "j", KeyAct.keyDown "f",
          KeyAct.holdSleep holdSeconds, KeyAct.keyUp "j", KeyAct.keyUp "f"] := by
  have h := (dispatch_press_hold_release demoMapping ["snare", "ghost", "bass_drum"]).2.2.2
      (by decide)
  rw [h]
  rfl

/-- C8: a start request while a session is running returns with the
whole player state unchanged and spawns no thread, so exactly the one
running session remains and is_playing stays truthy; a stop request
while no session is running returns with the state unchanged. -/
theorem rejected_start_stop_noop (s : DrumPlayer) :
    ((isPlayingPy s).truthy = true →
        playScore s = (s, false)
        ∧ (isPlayingPy (playScore s).1).truthy = true)
    ∧ ((isPlayingPy s).truthy = false → stopOp s = s) := by
  constructor
  · intro h
    refine ⟨by simp [playScore, h], ?_⟩
    simp [playScore, h]
  · intro h
    simp [stopOp, h]

/-- Witness for C8: a playing state rejects a second start unchanged,
and the freshly built player ignores stop. -/
theorem rejected_start_stop_noop_witness :
    playScore ⟨false, Option.some true, true, true⟩
        = (⟨false, Option.some true, true, true⟩, false)
    ∧ stopOp initPlayer = initPlayer := by
  exact ⟨((rejected_start_stop_noop ⟨false, Option.some true, true, true⟩).1 rfl).1,
    (rejected_start_stop_noop initPlayer).2 rfl⟩

/-- Counterexample for C9: before any session has started, is_playing
returns the Python expression playing_thread and ..., which evaluates
to None, an absent value and not a boolean at all, in particular not
the boolean false. -/
theorem is_playing_bool_counterexample :
    isPlayingPy initPlayer = PyValue.none
    ∧ ∀ b : Bool, isPlayingPy initPlayer ≠ PyValue.bool b := by
  refine ⟨rfl, ?_⟩
  intro b h
  cases h

/-- C9 amended: is_playing returns a falsy value, not necessarily a
boolean: None whenever playing_thread is None (in particular before
any session has started), and the is_alive boolean when a thread
handle exists; its result is truthy exactly when the dispatch thread
handle exists and is alive. -/
theorem is_playing_truthy_iff (s : DrumPlayer) :
    ((isPlayingPy s).truthy = true ↔ s.playingThread = Option.some true)
    ∧ (s.playingThread = Option.none → isPlayingPy s = PyValue.none)
    ∧ (∀ alive, s.playingThread = Option.some alive →
        isPlayingPy s = PyValue.bool alive) := by
  obtain ⟨se, pt, le, ve⟩ := s
  cases pt with
  | none =>
      refine ⟨?_, fun _ => rfl, ?_⟩
      · simp [isPlayingPy, PyValue.truthy]
      · intro alive halive
        cases halive
  | some alive =>
      refine ⟨?_, ?_, ?_⟩
      · cases alive <;> simp [isPlayingPy, PyValue.truthy]
      · intro hnone
        cases hnone
      · intro alive2 halive2
        cases halive2
        rfl

/-- Witness for C9: the amended statement at the initial state and at a
state with a live thread. -/
theorem is_playing_truthy_iff_witness :
    isPlayingPy initPlayer = PyValue.none
    ∧ (isPlayingPy ⟨false, Option.some true, false, false⟩).truthy = true := by
  exact ⟨(is_playing_truthy_iff initPlayer).2.1 rfl,
    (is_playing_truthy_iff ⟨false, Option.some true, false, false⟩).1.mpr rfl⟩

/-- C10: an accepted start clears stop_event before the thread starts,
so the new session begins with the cancellation flag false, and a
session whose flag is never set dispatches every event of every cycle
rather than aborting. -/
theorem start_clears_stale_cancel (s : DrumPlayer)
    (hidle : (isPlayingPy s).truthy = false) :
    (playScore s).1.stopEventSet = false
    ∧ (playScore s).2 = true
    ∧ ∀ (i : ℕ) (notes : List NoteEvent),
        innerLoop (fun _ => false) i notes = notes := by
  refine ⟨by simp [playScore, hidle], by simp [playScore, hidle], ?_⟩
  intro i notes
  exact innerLoop_never_set notes i

/-- Witness for C10: starting from a state with a stale stop request
(flag set, no thread) yields a session whose flag is cleared. -/
theorem start_clears_stale_cancel_witness :
    (playScore ⟨true, Option.none, false, false⟩).1.stopEventSet = false
    ∧ (playScore ⟨true, Option.none, false, false⟩).2 = true
    ∧ innerLoop (fun _ => false) 0 [⟨0, ["snare"], Option.none⟩]
        = [⟨0, ["snare"], Option.none⟩] := by
  have h := start_clears_stale_cancel ⟨true, Option.none, false, false⟩ rfl
  exact ⟨h.1, h.2.1, h.2.2 0 _⟩
